import Mathlib

/-!
Verification development for the OSM power-grid analysis pipeline
(`analysis.py`): attribute normalization (voltage / capacity parsing),
voltage filtering, nearest-neighbor matching, group-wise aggregation and
link synthesis, shallowly embedded over lists and exact rationals.

Conventions of the embedding:
  * A raw tag value is `Option String`; `none` stands for Python `None`.
  * Python `float` results are modelled as exact rationals `ℚ` (every
    numeric literal occurring in the pipeline and in the examples is
    exactly representable, and the arithmetic used is `+`, `/ 1000` and
    sums, which the rationals carry faithfully).
  * A Python run-time exception (an aborted run) is modelled as `none`
    in an `Option` result.
-/

/-- Digits of a run, folded to a natural number, as Python `int` does. -/
def digitsToNat (cs : List Char) : Nat :=
  cs.foldl (fun n c => 10 * n + (c.toNat - ('0').toNat)) 0

/-- First maximal run of decimal digits in a character list
(`re.search(r"\d+", part)`), as a natural number; `none` if no digit occurs. -/
def firstDigitRun (cs : List Char) : Option Nat :=
  let run := (cs.dropWhile (fun c => !c.isDigit)).takeWhile Char.isDigit
  if run.isEmpty then none else some (digitsToNat run)

/-- Python `part.split(";")` on character lists: `""` splits to `[""]`,
`";"` to `["", ""]`. -/
def splitSemi : List Char → List (List Char)
  | [] => [[]]
  | c :: cs =>
    if c = ';' then [] :: splitSemi cs
    else
      match splitSemi cs with
      | [] => [[c]]
      | seg :: rest => (c :: seg) :: rest

/-- One semicolon-separated segment of a voltage tag: first digit run,
values below 1000 scaled from kilovolts to volts. -/
def segVoltage (part : List Char) : Option Nat :=
  (firstDigitRun part).map (fun v => if v < 1000 then v * 1000 else v)

/-- `parse_voltage` of `analysis.py`: `None`/empty input give `None`;
otherwise the maximum over the parsed segments, `None` when no segment
has a digit. -/
def parse_voltage : Option String → Option Nat
  | none => none
  | some s =>
    if s = "" then none
    else ((splitSemi s.data).filterMap segVoltage).max?

/-- The voltage normalization as the specification words it: split on
semicolons, take the first run of digits of each segment, read values
below 1000 as kilovolts and larger ones as volts, return the maximum
across segments, null when no segment is numeric. -/
def voltageSpec (input : Option String) : Option Nat :=
  match input with
  | none => none
  | some s =>
    ((splitSemi s.data).filterMap
      (fun part =>
        (firstDigitRun part).map (fun v => if 1000 ≤ v then v else 1000 * v))).max?

/-- Characters the capacity regex `[\d.]+` matches. -/
def isCapChar (c : Char) : Bool := c.isDigit || c == '.'

/-- First maximal run of `[\d.]` characters in a string. -/
def firstCapRun (s : String) : List Char :=
  (s.data.dropWhile (fun c => !isCapChar c)).takeWhile isCapChar

/-- Python `float` on a string of digits and dots: defined exactly when it
holds at least one digit and at most one dot; `none` models the
`ValueError` that `float` raises otherwise. -/
def floatOfToken (cs : List Char) : Option ℚ :=
  if cs.any Char.isDigit ∧ cs.count '.' ≤ 1 then
    let ip := cs.takeWhile (fun c => c ≠ '.')
    let fp := (cs.dropWhile (fun c => c ≠ '.')).drop 1
    some ((digitsToNat ip : ℚ) + (digitsToNat fp : ℚ) / (10 : ℚ) ^ fp.length)
  else none

/-- Whether a character list holds `'k'` immediately followed by `'w'`. -/
def kwRun (cs : List Char) : Bool :=
  (cs.zip cs.tail).any (fun p => p.1 == 'k' && p.2 == 'w')

/-- Whether the lower-cased string holds the kilowatt marker `"kw"` as two
adjacent characters (`"kw" in str(value).lower()`). -/
def containsKW (s : String) : Bool :=
  kwRun (s.data.map (fun c => c.toLower))

/-- `parse_capacity` of `analysis.py`: `None`/empty input give `0`; else
the first `[\d.]+` run is fed to `float` (a run such as `"."` makes
`float` raise, modelled by `none`), divided by 1000 when a kilowatt
marker occurs anywhere in the input; `0` when no run exists. -/
def parse_capacity : Option String → Option ℚ
  | none => some 0
  | some s =>
    if s = "" then some 0
    else
      let tok := firstCapRun s
      if tok.isEmpty then some 0
      else
        match floatOfToken tok with
        | none => none
        | some cap => some (if containsKW s then cap / 1000 else cap)

/-- A substation after normalization and reduction: its identifier, its
representative point in the metric projection, and its parsed voltage. -/
structure Substation where
  id : Nat
  pos : ℚ × ℚ
  voltage : Option Nat
deriving DecidableEq, Repr

/-- A generator after normalization and reduction: identifier,
representative point, parsed capacity in megawatts, and the
`generator:method` category tag (`none` when absent). -/
structure Generator where
  id : Nat
  pos : ℚ × ℚ
  capacity_mw : ℚ
  method : Option String
deriving DecidableEq, Repr

/-- The voltage filter predicate of
`substations[substations["voltage"] >= 110000]`: a null voltage compares
as NaN, hence false. -/
def voltageOK : Option Nat → Bool
  | none => false
  | some v => 110000 ≤ v

/-- Feature Filter: retain transmission-grade substations only. -/
def filterSubs (subs : List Substation) : List Substation :=
  subs.filter (fun s => voltageOK s.voltage)

/-- Squared Euclidean distance in the shared metric projection; distance
comparisons and argmins agree with the true Euclidean distance. -/
def dist2 (p q : ℚ × ℚ) : ℚ := (p.1 - q.1) ^ 2 + (p.2 - q.2) ^ 2

/-- The minimal (squared) distance from a generator to the substation set;
`none` when the set is empty. -/
def minDist2 (subs : List Substation) (g : Generator) : Option ℚ :=
  (subs.map (fun s => dist2 g.pos s.pos)).min?

/-- Nearest-neighbor matching for one generator
(`gpd.sjoin_nearest(..., how="left")`): one output row per substation at
the minimal distance — geopandas returns every equidistant nearest
neighbor — and a single unmatched row when the substation set is empty. -/
def matchRows (subs : List Substation) (g : Generator) : List (Option Nat) :=
  match minDist2 subs g with
  | none => [none]
  | some d =>
    (subs.filter (fun s => dist2 g.pos s.pos == d)).map (fun s => some s.id)

/-- The matched generator table: each generator's rows, in input order. -/
def matchedGens (subs : List Substation) (gens : List Generator) : List (Generator × Option Nat) :=
  gens.flatMap (fun g => (matchRows subs g).map (fun m => (g, m)))

/-- The group of a substation identifier under
`generators.groupby("nearest_substation_id")`: the generators of the rows
matched to it (rows with a null match key are dropped by groupby). -/
def groupGens (rows : List (Generator × Option Nat)) (sid : Nat) : List Generator :=
  (rows.filter (fun r => r.2 == some sid)).map (fun r => r.1)

/-- The global category vocabulary: the distinct non-null
`generator:method` values among matched rows (`value_counts` drops null
categories, `groupby` drops unmatched rows). -/
def vocab (rows : List (Generator × Option Nat)) : List String :=
  ((rows.filter (fun r => r.2.isSome)).filterMap (fun r => r.1.method)).dedup

/-- Per-category count within a substation's group. -/
def countCat (rows : List (Generator × Option Nat)) (sid : Nat) (c : String) : Nat :=
  (groupGens rows sid).countP (fun g => g.method == some c)

/-- `.astype(int)`: numpy's float-to-int cast truncates toward zero. -/
def truncToInt (q : ℚ) : ℤ := if 0 ≤ q then ⌊q⌋ else ⌈q⌉

/-- A substation record after the three aggregation merges. -/
structure AggSub where
  sub : Substation
  num_generators : Nat
  breakdown : List (String × Nat)
  total_capacity_mw : ℤ
deriving DecidableEq, Repr

/-- The aggregate record one substation row receives from the three
left-merges on its identifier: group size, the full breakdown row over the
global vocabulary (zero-filled), and the group capacity sum cast by
`astype(int)`; substations absent from every group get the NaN-fill
defaults, which the same formulas produce on the empty group. -/
def aggSubRecord (rows : List (Generator × Option Nat)) (s : Substation) : AggSub :=
  { sub := s
    num_generators := (groupGens rows s.id).length
    breakdown := (vocab rows).map (fun c => (c, countCat rows s.id c))
    total_capacity_mw := truncToInt (((groupGens rows s.id).map (fun g => g.capacity_mw)).sum) }

/-- Aggregator: every (filtered) substation row, annotated. -/
def aggregate (subs : List Substation) (rows : List (Generator × Option Nat)) : List AggSub :=
  subs.map (aggSubRecord rows)

/-- A connecting line: generator id, substation id, capacity, and the
two-point segment. -/
structure Link where
  gen_id : Nat
  sub_id : Nat
  capacity_mw : ℚ
  seg : (ℚ × ℚ) × (ℚ × ℚ)
deriving DecidableEq, Repr

/-- The merge rows one matched generator row contributes to the line
table: one per substation carrying its match key (none for an unmatched
row, whose merge row has no line geometry). -/
def linkRowsFor (subs : List Substation) (r : Generator × Option Nat) : List Link :=
  match r.2 with
  | none => []
  | some sid =>
    (subs.filter (fun s => s.id == sid)).map (fun s =>
      ⟨r.1.id, s.id, r.1.capacity_mw, (r.1.pos, s.pos)⟩)

/-- Link Synthesizer: the left-merge of matched rows with substations on
the match key keeps unmatched rows with a missing substation geometry, on
which `LineString([geometry_x, geometry_y])` raises — the whole run
aborts, modelled as `none`. Otherwise one line per merge row. -/
def synthLinks (subs : List Substation) (rows : List (Generator × Option Nat)) : Option (List Link) :=
  if rows.all (fun r => r.2.isSome) then
    some (rows.flatMap (linkRowsFor subs))
  else none

/-! Concrete fixtures used by the evaluation theorems below: a
transmission-grade substation at the origin, generators around it, and a
pair of substations equidistant from a generator between them. -/

/-- A substation at the origin with voltage 110000 V. -/
def s1 : Substation := ⟨1, (0, 0), some 110000⟩

/-- A generator with capacity parsed from `"2.5 MW"` and a category. -/
def g1 : Generator := ⟨10, (1, 0), 5/2, some "solar"⟩

/-- A generator whose `generator:method` tag is absent. -/
def g2 : Generator := ⟨11, (1, 0), 1, none⟩

/-- One of two equidistant substations. -/
def sA : Substation := ⟨1, (1, 0), some 110000⟩

/-- The other equidistant substation. -/
def sB : Substation := ⟨2, (-1, 0), some 110000⟩

/-- A generator exactly between `sA` and `sB`. -/
def g0 : Generator := ⟨10, (0, 0), 1, some "wind"⟩

/-- C4: the claim says capacity parsing returns 0 on unparseable input and
never raises for any input. The code violates this: on `"."` (and on
`"1.2.3"`) the regex `[\d.]+` matches but Python `float` raises
`ValueError`, aborting the run (modelled as `none`); empty and null input
do return 0 as claimed. -/
theorem C4_code_eval :
    parse_capacity (some ".") = none ∧
    parse_capacity (some "1.2.3") = none ∧
    parse_capacity (some "") = some 0 ∧
    parse_capacity none = some 0 := by
  refine ⟨?_, ?_, by decide, rfl⟩ <;>
    simp [parse_capacity, firstCapRun, isCapChar, floatOfToken]

/-- C1: the claim says the aggregated total-capacity field is the exact,
possibly fractional, sum of matched capacities. The code applies
`.astype(int)` to the sum: for a substation whose single matched generator
has capacity 2.5 MW the stored field is 2 while the exact sum is 5/2. -/
theorem C1_code_eval :
    (aggSubRecord (matchedGens (filterSubs [s1]) [g1]) s1).total_capacity_mw = 2 ∧
    ((groupGens (matchedGens (filterSubs [s1]) [g1]) 1).map
      (fun g => g.capacity_mw)).sum = 5/2 ∧
    ((2 : ℤ) : ℚ) ≠ 5/2 := by
  refine ⟨?_, ?_, by norm_num⟩
  · simp [aggSubRecord, matchedGens, filterSubs, voltageOK, matchRows, minDist2, dist2,
      groupGens, vocab, countCat, truncToInt, s1, g1]
    norm_num
  · simp [matchedGens, filterSubs, voltageOK, matchRows, minDist2, dist2, groupGens, s1, g1]

/-- C3 counterexample: a generator equidistant from two substations is
matched to both — `sjoin_nearest` returns every equidistant nearest
neighbor — so after matching it carries two distinct matched substation
identifiers, not at most one. -/
theorem C3_counterexample :
    matchedGens [sA, sB] [g0] = [(g0, some 1), (g0, some 2)] ∧
    (1 : Nat) ≠ 2 := by
  refine ⟨?_, by decide⟩
  simp [matchedGens, matchRows, minDist2, dist2, sA, sB, g0]

/-- C2 counterexample: with two equidistant substations, the single
matched generator yields two Link records, exceeding the number of
matched generators (one); and with an empty substation set the unmatched
generator row makes link synthesis raise (`LineString` over a missing
geometry), modelled as `none`, instead of producing no Link. -/
theorem C2_counterexample :
    (synthLinks [sA, sB] (matchedGens [sA, sB] [g0])).map List.length = some 2 ∧
    ([g0].countP (fun g => (matchRows [sA, sB] g).any (fun m => m.isSome))) = 1 ∧
    (2 : Nat) ≠ 1 ∧
    synthLinks [] (matchedGens [] [g1]) = none := by
  refine ⟨?_, ?_, by decide, ?_⟩
  · simp [synthLinks, linkRowsFor, matchedGens, matchRows, minDist2, dist2, sA, sB, g0]
  · simp [List.countP_cons, List.countP_nil, matchRows, minDist2, dist2, sA, sB, g0]
  · simp [synthLinks, linkRowsFor, matchedGens, matchRows, minDist2]

/-- C10 counterexample: a matched generator with an absent category tag is
counted by `num_generators` but `value_counts` drops it, so the group's
per-category counts sum to 0 while the group total is 1. -/
theorem C10_counterexample :
    ((aggSubRecord (matchedGens [s1] [g2]) s1).breakdown.map Prod.snd).sum = 0 ∧
    (aggSubRecord (matchedGens [s1] [g2]) s1).num_generators = 1 ∧
    (0 : Nat) ≠ 1 := by
  refine ⟨?_, ?_, by decide⟩
  · simp [aggSubRecord, matchedGens, matchRows, minDist2, dist2, groupGens, vocab, countCat,
      s1, g2]
  · simp [aggSubRecord, matchedGens, matchRows, minDist2, dist2, groupGens, s1, g2]

/-- C8: the substation filter keeps a record exactly when its normalized
voltage is non-null and at least 110000 V (inclusive boundary): voltage
20000 is excluded, exactly 110000 is included, null voltage is dropped. -/
theorem C8_filter :
    (∀ (subs : List Substation) (s : Substation),
      s ∈ filterSubs subs ↔ s ∈ subs ∧ ∃ v, s.voltage = some v ∧ 110000 ≤ v) ∧
    filterSubs [⟨5, (0, 0), some 20000⟩] = [] ∧
    filterSubs [⟨6, (0, 0), some 110000⟩] = [⟨6, (0, 0), some 110000⟩] ∧
    filterSubs [⟨7, (0, 0), none⟩] = [] := by
  refine ⟨?_, by simp [filterSubs, voltageOK], by simp [filterSubs, voltageOK],
    by simp [filterSubs, voltageOK]⟩
  intro subs s
  rw [filterSubs, List.mem_filter]
  cases h : s.voltage with
  | none => simp [voltageOK, h]
  | some v => simp [voltageOK, h]

/-- A non-digit head character does not change the first digit run. -/
theorem firstDigitRun_cons_of_nondigit {c : Char} (h : c.isDigit = false) (cs : List Char) :
    firstDigitRun (c :: cs) = firstDigitRun cs := by
  rw [firstDigitRun, firstDigitRun, List.dropWhile_cons_of_pos (by simp [h])]

/-- Splitting on semicolons always yields at least one segment. -/
theorem splitSemi_ne_nil (cs : List Char) : splitSemi cs ≠ [] := by
  cases cs with
  | nil => simp [splitSemi]
  | cons c cs =>
    rw [splitSemi]
    by_cases h : c = ';'
    · simp [h]
    · rw [if_neg h]
      cases splitSemi cs <;> simp

/-- The source's per-segment voltage parse agrees with the specification's
wording of the kilovolt rule. -/
theorem segVoltage_eq_spec (part : List Char) :
    segVoltage part = (firstDigitRun part).map (fun v => if 1000 ≤ v then v else 1000 * v) := by
  rw [segVoltage]
  cases firstDigitRun part with
  | none => rfl
  | some v =>
    simp only [Option.map_some']
    congr 1
    rcases Nat.lt_or_ge v 1000 with h | h
    · rw [if_pos h, if_neg (by omega), Nat.mul_comm]
    · rw [if_neg (by omega), if_pos h]

/-- C5: voltage parsing splits on semicolons, takes the first digit run of
each segment, scales values below 1000 from kilovolts, keeps values of
1000 or more as volts, and returns the maximum across segments; it is
null for empty input or input with no numeric segment. The stated
examples hold: `"20"` ↦ 20000, `"110000"` ↦ 110000, `"20;110"` ↦ 110000,
`""`, null and `"abc"` ↦ null. -/
theorem C5_parse_voltage :
    (∀ input, parse_voltage input = voltageSpec input) ∧
    parse_voltage (some "20") = some 20000 ∧
    parse_voltage (some "110000") = some 110000 ∧
    parse_voltage (some "20;110") = some 110000 ∧
    parse_voltage (some "") = none ∧
    parse_voltage none = none ∧
    parse_voltage (some "abc") = none := by
  refine ⟨?_, by decide, by decide, by decide, by decide, rfl, by decide⟩
  intro input
  cases input with
  | none => rfl
  | some s =>
    by_cases h : s = ""
    · subst h; decide
    · simp only [parse_voltage, voltageSpec, if_neg h]
      rw [show segVoltage = fun part =>
        (firstDigitRun part).map (fun v => if 1000 ≤ v then v else 1000 * v) from
        funext segVoltage_eq_spec]

/-- C6: capacity parsing extracts the first `[\d.]` run; when it is a
well-formed number, the parse is that number divided by 1000 exactly when
a case-insensitive kilowatt marker occurs in the input. The stated
examples hold: `"2.5 MW"` ↦ 5/2, `"500 kW"` ↦ 1/2, `""`, null and
`"n/a"` ↦ 0. -/
theorem C6_parse_capacity :
    (∀ (s : String) (v : ℚ), floatOfToken (firstCapRun s) = some v →
      parse_capacity (some s) = some (if containsKW s then v / 1000 else v)) ∧
    parse_capacity (some "2.5 MW") = some (5/2) ∧
    parse_capacity (some "500 kW") = some (1/2) ∧
    parse_capacity (some "") = some 0 ∧
    parse_capacity none = some 0 ∧
    parse_capacity (some "n/a") = some 0 := by
  refine ⟨?_, ?_, ?_, by decide, rfl, by decide⟩
  · intro s v h
    have hne : s ≠ "" := by
      rintro rfl
      rw [show firstCapRun "" = [] from rfl,
        show floatOfToken [] = none from rfl] at h
      exact Option.noConfusion h
    have htok : (firstCapRun s).isEmpty = false := by
      rw [List.isEmpty_eq_false]
      intro he
      rw [he, show floatOfToken [] = none from rfl] at h
      exact Option.noConfusion h
    simp only [parse_capacity, if_neg hne, htok, h]
    simp
  · simp [parse_capacity, firstCapRun, isCapChar, floatOfToken, containsKW, kwRun, digitsToNat]
    norm_num
  · simp [parse_capacity, firstCapRun, isCapChar, floatOfToken, containsKW, kwRun, digitsToNat]
    norm_num

/-- Witness for the general law of `C6_parse_capacity`, at `"500 kW"`. -/
theorem C6_witness :
    floatOfToken (firstCapRun "500 kW") = some 500 ∧
    parse_capacity (some "500 kW") =
      some (if containsKW "500 kW" then (500 : ℚ) / 1000 else 500) := by
  have h : floatOfToken (firstCapRun "500 kW") = some 500 := by
    simp [firstCapRun, isCapChar, floatOfToken, digitsToNat]
  exact ⟨h, C6_parse_capacity.1 "500 kW" 500 h⟩

/-- A leading non-`'k'` character contributes no kilowatt marker. -/
theorem kwRun_cons_dash (cs : List Char) : kwRun ('-' :: cs) = kwRun cs := by
  cases cs with
  | nil => rfl
  | cons c rest =>
    rw [kwRun, kwRun]
    simp only [List.tail_cons, List.zip_cons_cons, List.any_cons]
    rw [show (('-' : Char) == 'k') = false from by decide]
    simp

/-- Prefixing a minus sign cannot create a kilowatt marker. -/
theorem containsKW_dash (s : String) : containsKW ("-" ++ s) = containsKW s := by
  rw [containsKW, containsKW, String.data_append, show ("-" : String).data = ['-'] from rfl,
    List.singleton_append, List.map_cons, show Char.toLower '-' = '-' from by decide,
    kwRun_cons_dash]

/-- A minus sign is not part of the `[\d.]+` token. -/
theorem firstCapRun_dash (s : String) : firstCapRun ("-" ++ s) = firstCapRun s := by
  rw [firstCapRun, firstCapRun, String.data_append, show ("-" : String).data = ['-'] from rfl,
    List.singleton_append, List.dropWhile_cons_of_pos (by decide)]

/-- A string starting with a minus sign is nonempty. -/
theorem dash_ne_empty (s : String) : ("-" ++ s) ≠ "" := by
  intro h
  have h2 := congrArg String.data h
  rw [String.data_append, show ("-" : String).data = ['-'] from rfl,
    show ("" : String).data = [] from rfl, List.singleton_append] at h2
  exact List.noConfusion h2

/-- Capacity parsing ignores a leading minus sign entirely. -/
theorem parse_capacity_dash (s : String) :
    parse_capacity (some ("-" ++ s)) = parse_capacity (some s) := by
  by_cases h : s = ""
  · subst h; decide
  · simp only [parse_capacity, if_neg h, if_neg (dash_ne_empty s), firstCapRun_dash,
      containsKW_dash]

/-- Voltage parsing ignores a leading minus sign entirely. -/
theorem parse_voltage_dash (s : String) :
    parse_voltage (some ("-" ++ s)) = parse_voltage (some s) := by
  by_cases h : s = ""
  · subst h; decide
  · simp only [parse_voltage, if_neg h, if_neg (dash_ne_empty s)]
    obtain ⟨seg, rest, hsp⟩ : ∃ seg rest, splitSemi s.data = seg :: rest := by
      cases hx : splitSemi s.data with
      | nil => exact absurd hx (splitSemi_ne_nil _)
      | cons a b => exact ⟨a, b, rfl⟩
    rw [String.data_append, show ("-" : String).data = ['-'] from rfl, List.singleton_append]
    rw [show splitSemi ('-' :: s.data) = ('-' :: seg) :: rest from by
      rw [splitSemi, if_neg (by decide), hsp]]
    rw [hsp]
    simp only [List.filterMap_cons]
    rw [show segVoltage ('-' :: seg) = segVoltage seg from by
      rw [segVoltage, segVoltage, firstDigitRun_cons_of_nondigit (by decide)]]

/-- C7 counterexample: the claim says a negative input parses to the same
negative number, but the digit regexes never capture a sign: `"-5"`
parses to capacity 5, not −5, and `"-20"` parses to voltage 20000. -/
theorem C7_counterexample :
    parse_capacity (some "-5") = some 5 ∧
    ((5 : ℚ) ≠ -5) ∧
    parse_voltage (some "-20") = some 20000 ∧
    parse_voltage (some "20") = some 20000 := by
  refine ⟨?_, by norm_num, by decide, by decide⟩
  simp [parse_capacity, firstCapRun, isCapChar, floatOfToken, containsKW, kwRun, digitsToNat]

/-- C7 amended: a leading minus sign is dropped by both parsers — a
negative input parses exactly as its absolute magnitude — while zero
magnitudes pass through unmodified and no clamping is applied. -/
theorem C7_amended :
    (∀ s : String, parse_capacity (some ("-" ++ s)) = parse_capacity (some s)) ∧
    (∀ s : String, parse_voltage (some ("-" ++ s)) = parse_voltage (some s)) ∧
    parse_capacity (some "0") = some 0 ∧
    parse_voltage (some "0") = some 0 := by
  refine ⟨parse_capacity_dash, parse_voltage_dash, ?_, by decide⟩
  simp [parse_capacity, firstCapRun, isCapChar, floatOfToken, containsKW, kwRun, digitsToNat]

/-- A list mapped to all-ones sums to its length. -/
theorem sum_map_ones {α : Type} (f : α → Nat) :
    ∀ l : List α, (∀ x ∈ l, f x = 1) → (l.map f).sum = l.length := by
  intro l
  induction l with
  | nil => intro _; rfl
  | cons a l ih =>
    intro h
    rw [List.map_cons, List.sum_cons, h a (List.mem_cons_self a l),
      ih (fun x hx => h x (List.mem_cons_of_mem a hx)), List.length_cons, Nat.add_comm]

/-- A matched row whose substation identifier occurs exactly once yields
exactly one merge row. -/
theorem linkRowsFor_length {subs : List Substation} {r : Generator × Option Nat} {sid : Nat}
    (h2 : r.2 = some sid) (hc : subs.countP (fun s => s.id == sid) = 1) :
    (linkRowsFor subs r).length = 1 := by
  rw [linkRowsFor, h2]
  rw [List.length_map, ← List.countP_eq_length_filter, hc]

/-- C2 amended: link synthesis fails outright (the run aborts) as soon as
any generator row is unmatched, instead of skipping it; when every row is
matched and each matched identifier names exactly one substation, the
number of Link records equals the number of matched generator rows — one
per (generator, equidistant-nearest-substation) pair — which under
distance ties exceeds the number of matched generators. -/
theorem C2_amended (subs : List Substation) (rows : List (Generator × Option Nat)) :
    (rows.any (fun r => r.2.isNone) = true → synthLinks subs rows = none) ∧
    (rows.all (fun r => r.2.isSome) = true →
     rows.all (fun r => r.2.elim true (fun sid => subs.countP (fun s => s.id == sid) == 1)) = true →
     ∃ l, synthLinks subs rows = some l ∧ l.length = rows.length) := by
  constructor
  · intro hany
    rw [synthLinks, if_neg]
    intro hall
    obtain ⟨r, hr, hnone⟩ := List.any_eq_true.mp hany
    have hsome := List.all_eq_true.mp hall r hr
    rw [Option.isNone_iff_eq_none.mp hnone] at hsome
    exact Bool.noConfusion hsome
  · intro hall hcnt
    rw [synthLinks, if_pos hall]
    refine ⟨_, rfl, ?_⟩
    rw [List.length_flatMap]
    refine sum_map_ones _ rows (fun r hr => ?_)
    have hsome := List.all_eq_true.mp hall r hr
    obtain ⟨sid, hsid⟩ := Option.isSome_iff_exists.mp hsome
    have hc := List.all_eq_true.mp hcnt r hr
    rw [hsid] at hc
    simp only [Option.elim] at hc
    exact linkRowsFor_length hsid (by simpa using hc)

/-- Witness for `C2_amended`: one matched row, one link. -/
theorem C2_witness :
    ∃ l, synthLinks [sA] [((g0 : Generator), some 1)] = some l ∧ l.length = 1 :=
  (C2_amended [sA] [(g0, some 1)]).2 (by decide) (by decide)

/-- `List.min?` on the rationals returns a least element of the list. -/
theorem rat_min?_eq_some_iff {xs : List ℚ} {a : ℚ} :
    xs.min? = some a ↔ a ∈ xs ∧ ∀ b, b ∈ xs → a ≤ b := by
  haveI : Std.Antisymm ((· : ℚ) ≤ ·) := ⟨fun h1 h2 => le_antisymm h1 h2⟩
  exact List.min?_eq_some_iff (fun a => le_refl a) (fun a b => min_choice a b)
    (fun _ _ _ => le_min_iff)

/-- C3 amended: a generator's matched identifiers are exactly the
identifiers of the substations at minimal distance — one matched row per
equidistant nearest substation, so several under ties — and a single
identifier-free row when the filtered substation set is empty; matching
is many-to-one only when the nearest substation is unique. -/
theorem C3_amended (subs : List Substation) (g : Generator) :
    (subs = [] → matchRows subs g = [none]) ∧
    (∀ sid, some sid ∈ matchRows subs g ↔
      ∃ s, s ∈ subs ∧ s.id = sid ∧ ∀ t ∈ subs, dist2 g.pos s.pos ≤ dist2 g.pos t.pos) ∧
    (∀ d, minDist2 subs g = some d →
      (matchRows subs g).length = subs.countP (fun s => dist2 g.pos s.pos == d)) := by
  refine ⟨?_, ?_, ?_⟩
  · rintro rfl; rfl
  · intro sid
    cases hm : minDist2 subs g with
    | none =>
      have hnil : subs = [] := by
        rw [minDist2] at hm
        exact List.map_eq_nil_iff.mp (List.min?_eq_none_iff.mp hm)
      subst hnil
      simp [matchRows, minDist2]
    | some d =>
      rw [matchRows, hm]
      obtain ⟨hdmem, hdle⟩ := rat_min?_eq_some_iff.mp (by rw [minDist2] at hm; exact hm)
      constructor
      · intro hmem
        obtain ⟨s, hsf, hsid⟩ := List.mem_map.mp hmem
        obtain ⟨hs, hbeq⟩ := List.mem_filter.mp hsf
        have hsd : dist2 g.pos s.pos = d := by simpa using hbeq
        refine ⟨s, hs, by simpa using hsid, fun t ht => ?_⟩
        rw [hsd]
        exact hdle _ (List.mem_map.mpr ⟨t, ht, rfl⟩)
      · rintro ⟨s, hs, rfl, hmin⟩
        refine List.mem_map.mpr ⟨s, List.mem_filter.mpr ⟨hs, ?_⟩, rfl⟩
        obtain ⟨t, ht, htd⟩ := List.mem_map.mp hdmem
        have h1 : d ≤ dist2 g.pos s.pos := hdle _ (List.mem_map.mpr ⟨s, hs, rfl⟩)
        have h2 : dist2 g.pos s.pos ≤ d := by rw [← htd]; exact hmin t ht
        simpa using le_antisymm h2 h1
  · intro d hm
    rw [matchRows, hm, List.length_map, List.countP_eq_length_filter]

/-- Witness for `C3_amended`: with no substation in scope, the generator
gets a single unmatched row. -/
theorem C3_witness : matchRows [] g0 = [none] := (C3_amended [] g0).1 rfl

/-- C9: every aggregated substation record carries exactly the global
category vocabulary as its breakdown columns — the same list for every
record — each column holding the per-category count of its matched
generators, with 0 for every category the substation has no matched
generator in, and the all-zero row for substations with no matched
generators at all. -/
theorem C9_schema (subs : List Substation) (rows : List (Generator × Option Nat)) (r : AggSub)
    (hr : r ∈ aggregate subs rows) :
    r.breakdown.map Prod.fst = vocab rows ∧
    (∀ c n, (c, n) ∈ r.breakdown → n = countCat rows r.sub.id c) ∧
    (∀ c, c ∈ vocab rows → (∀ g ∈ groupGens rows r.sub.id, ¬ g.method = some c) →
      (c, 0) ∈ r.breakdown) ∧
    (groupGens rows r.sub.id = [] → r.breakdown = (vocab rows).map (fun c => (c, 0))) := by
  obtain ⟨s, hs, rfl⟩ := List.mem_map.mp hr
  refine ⟨?_, ?_, ?_, ?_⟩
  · simp [aggSubRecord, List.map_map, Function.comp_def]
  · intro c n hcn
    simp only [aggSubRecord, List.mem_map] at hcn
    obtain ⟨c', hc', heq⟩ := hcn
    obtain ⟨h1, h2⟩ := Prod.mk.injEq .. |>.mp heq
    subst h1
    exact h2.symm
  · intro c hc hnone
    have hz : countCat rows s.id c = 0 := by
      rw [countCat]
      exact List.countP_eq_zero.mpr (fun g hg => by
        simp only [beq_iff_eq]
        exact fun hgc => hnone g hg (by simpa using hgc))
    have : ((c, 0) : String × Nat) = (c, countCat rows s.id c) := by rw [hz]
    rw [show (aggSubRecord rows s).breakdown
        = (vocab rows).map (fun c => (c, countCat rows s.id c)) from rfl, this]
    exact List.mem_map.mpr ⟨c, hc, rfl⟩
  · intro hempty
    have hempty2 : groupGens rows s.id = [] := hempty
    rw [show (aggSubRecord rows s).breakdown
        = (vocab rows).map (fun c => (c, countCat rows s.id c)) from rfl]
    refine List.map_congr_left (fun c hc => ?_)
    rw [countCat, hempty2]
    rfl

/-- Witness for `C9_schema`: the singleton pipeline's record carries the
global vocabulary as its columns. -/
theorem C9_witness :
    (aggSubRecord [((g1 : Generator), some 1)] s1).breakdown.map Prod.fst
      = vocab [(g1, some 1)] :=
  (C9_schema [s1] [(g1, some 1)] _ (by simp [aggregate])).1

/-- Sums of pointwise-added maps split. -/
theorem sum_map_add_nat {α : Type} (f h : α → Nat) :
    ∀ l : List α, (l.map (fun x => f x + h x)).sum = (l.map f).sum + (l.map h).sum := by
  intro l
  induction l with
  | nil => rfl
  | cons a l ih =>
    simp only [List.map_cons, List.sum_cons, ih]
    omega

/-- An indicator for a value outside the list sums to 0. -/
theorem sum_ite_eq_zero (m : String) : ∀ vs : List String, m ∉ vs →
    (vs.map (fun c => if m == c then (1 : Nat) else 0)).sum = 0 := by
  intro vs
  induction vs with
  | nil => intro _; rfl
  | cons c vs ih =>
    intro h
    have hmc : ¬ (m == c) = true := by
      simp only [beq_iff_eq]
      intro he
      subst he
      exact h (List.mem_cons_self m vs)
    rw [List.map_cons, List.sum_cons, if_neg hmc, Nat.zero_add,
      ih (fun hm => h (List.mem_cons_of_mem c hm))]

/-- An indicator for a value of a duplicate-free list sums to 1. -/
theorem sum_ite_eq_one (m : String) : ∀ vs : List String, vs.Nodup → m ∈ vs →
    (vs.map (fun c => if m == c then (1 : Nat) else 0)).sum = 1 := by
  intro vs
  induction vs with
  | nil => intro _ h; cases h
  | cons c vs ih =>
    intro hnd hm
    rw [List.map_cons, List.sum_cons]
    by_cases he : m = c
    · subst he
      rw [if_pos (by simp), sum_ite_eq_zero m vs (List.nodup_cons.mp hnd).1]
    · have hmv : m ∈ vs := by
        cases List.mem_cons.mp hm with
        | inl h => exact absurd h he
        | inr h => exact h
      rw [if_neg (by simp [he]), Nat.zero_add, ih (List.nodup_cons.mp hnd).2 hmv]

/-- Summing per-category counts over a duplicate-free vocabulary covering
every category of the group counts exactly the members with a category. -/
theorem sum_countCat_aux (vs : List String) (hnd : vs.Nodup) :
    ∀ gs : List Generator, (∀ g ∈ gs, ∀ m, g.method = some m → m ∈ vs) →
    (vs.map (fun c => gs.countP (fun g => g.method == some c))).sum
      = gs.countP (fun g => g.method.isSome) := by
  intro gs
  induction gs with
  | nil => intro _; simp
  | cons g gs ih =>
    intro h
    have hrest : ∀ g' ∈ gs, ∀ m, g'.method = some m → m ∈ vs :=
      fun g' hg' => h g' (List.mem_cons_of_mem g hg')
    simp only [List.countP_cons]
    rw [sum_map_add_nat, ih hrest]
    cases hgm : g.method with
    | none =>
      simp [hgm]
    | some m =>
      have hm : m ∈ vs := h g (List.mem_cons_self g gs) m hgm
      have hbeq : ∀ c : String, ((some m == some c : Bool)) = (m == c) := fun c => rfl
      simp only [hgm, hbeq]
      rw [sum_ite_eq_one m vs hnd hm]
      simp

/-- The non-null category of any group member is in the global vocabulary. -/
theorem mem_vocab_of_group {rows : List (Generator × Option Nat)} {sid : Nat} {g : Generator}
    {m : String} (hg : g ∈ groupGens rows sid) (hm : g.method = some m) : m ∈ vocab rows := by
  rw [vocab, List.mem_dedup]
  rw [groupGens] at hg
  obtain ⟨r, hr, rfl⟩ := List.mem_map.mp hg
  obtain ⟨hrr, hbeq⟩ := List.mem_filter.mp hr
  refine List.mem_filterMap.mpr ⟨r, List.mem_filter.mpr ⟨hrr, ?_⟩, hm⟩
  have h2 : r.2 = some sid := by simpa using hbeq
  rw [h2]
  rfl

/-- C10 amended: a group's per-category counts sum to the number of its
members with a non-null category tag — `value_counts` drops null
categories — and agree with the group total `num_generators` exactly when
every member carries a category tag. -/
theorem C10_amended (rows : List (Generator × Option Nat)) (s : Substation) :
    ((aggSubRecord rows s).breakdown.map Prod.snd).sum
      = (groupGens rows s.id).countP (fun g => g.method.isSome) ∧
    ((groupGens rows s.id).all (fun g => g.method.isSome) = true →
      ((aggSubRecord rows s).breakdown.map Prod.snd).sum
        = (aggSubRecord rows s).num_generators) := by
  have hmain : ((aggSubRecord rows s).breakdown.map Prod.snd).sum
      = (groupGens rows s.id).countP (fun g => g.method.isSome) := by
    rw [show (aggSubRecord rows s).breakdown
        = (vocab rows).map (fun c => (c, countCat rows s.id c)) from rfl,
      List.map_map]
    exact sum_countCat_aux (vocab rows) (List.nodup_dedup _)
      (groupGens rows s.id) (fun g hg m hm => mem_vocab_of_group hg hm)
  refine ⟨hmain, fun hall => ?_⟩
  rw [hmain, show (aggSubRecord rows s).num_generators = (groupGens rows s.id).length from rfl]
  exact List.countP_eq_length.mpr (List.all_eq_true.mp hall)

/-- Witness for `C10_amended`: with every member categorized the sums
agree. -/
theorem C10_witness :
    ((aggSubRecord [((g1 : Generator), some 1)] s1).breakdown.map Prod.snd).sum
      = (aggSubRecord [(g1, some 1)] s1).num_generators :=
  (C10_amended [(g1, some 1)] s1).2 (by decide)
